import Mathlib

/-!
DNSCache: a fixed-capacity LRU cache from domain names to IP addresses

A shallow embedding of `DNSCache.h` / `DNSCache.cpp` and a verification of its
sequential behaviour.

Modelling decisions.

* `std::list<DomainInfo>` is a Lean list of nodes, front of the list first. Each
  node carries an identity `id` standing for its address, so that a
  `std::list` iterator (which designates a node and survives `splice`) is the
  identity of the node it designates. `next_node` is the identity the allocator
  hands to the next node created by `push_front`.
* The index is `std::unordered_map<std::string_view, iterator>`, and
  `m_hash_cache[name]` stores a view of the string of the caller (`name` is a
  `const std::string&`), not of the copy `domain` held by the list node. A
  `StringView` is therefore an address and a length; the characters it reads are
  those the string object of the caller at that address holds at the time of the
  read. `Memory` holds the string objects of the caller. The caller may overwrite
  the characters of one of its strings in place (`s[i] = c`), which keeps address
  and length and is what `mem_write` does; every lookup in the index compares
  its argument with the characters the stored views read at that moment.
* `std::unordered_map` is the list of its nodes in iteration order, each with the hash
  code libstdc++ caches in it (`std::hash<std::string_view>` is not a fast hash). The
  code is that of the characters the key read when the node was inserted, and is
  represented by these characters themselves, as for a hash without collisions.
  While the map holds at most 20 entries (`__small_size_threshold`), `find` and
  `erase` scan all nodes and compare keys; beyond, and always in `operator[]`,
  they go to the bucket of the hash code of the argument and compare cached code
  and key. A new node is put first; the iteration order matters only when the keys
  of two nodes read the same characters.
* Strings are sequences of characters; a character stands for a byte.
* An operation whose C++ behaviour is undefined (`back()` of an empty list,
  dereferencing or splicing an iterator that designates no node, a reference to
  no string object) yields `none`.
* `size_t` values are natural numbers; the code performs no arithmetic on them.
* The two mutexes serialise the calls; the embedding is of one call at a time.
-/

/-- Payload of a list node: `struct DomainInfo { std::string domain; std::string ip; }`. -/
structure DomainInfo where
  domain : String
  ip : String
  deriving DecidableEq, Repr

/-- The type `std::list<DomainInfo>::iterator`: the identity of the designated node. -/
abbrev DomainInfoListIter := Nat

/-- A node of `std::list<DomainInfo>`: its identity and its payload. -/
structure ListNode where
  id : DomainInfoListIter
  info : DomainInfo
  deriving DecidableEq, Repr

/-- A `std::string_view`: the address of the viewed characters and their number. The
characters belong to the string object of the caller at that address. -/
structure StringView where
  data : Nat
  size : Nat
  deriving DecidableEq, Repr

/-- The string objects of the caller: the address of each and its current characters. -/
abbrev Memory := List (Nat × String)

/-- A node of the index: the key and the mapped iterator of its `std::pair`, and the hash
code cached in the node, represented by the characters that were hashed. -/
structure HashNode where
  key : StringView
  code : String
  value : DomainInfoListIter
  deriving DecidableEq, Repr

/-- The data members of `class DNSCache` (the mutexes apart) and the allocator state. -/
structure DNSCache where
  m_max_size : Nat
  m_lru_cache : List ListNode
  m_hash_cache : List HashNode
  next_node : Nat
  deriving DecidableEq, Repr

/-! ## The strings of the caller -/

/-- The string object at an address, if there is one. -/
def mem_read : Memory → Nat → Option String
  | [], _ => none
  | (b, t) :: mem, a => if b = a then some t else mem_read mem a

/-- The caller constructs a string at a free address, or overwrites in place the characters
of the string it has there (`s[i] = c`): the length is kept. A write of another length
is not an overwrite in place and is outside the embedding. -/
def mem_write : Memory → Nat → String → Option Memory
  | [], a, s => some [(a, s)]
  | (b, t) :: mem, a, s =>
    if b = a then (if t.length = s.length then some ((b, s) :: mem) else none)
    else (mem_write mem a s).map (fun m => (b, t) :: m)

/-- The characters a view reads now: the first `size` characters of the string at `data`. -/
def view_read (mem : Memory) (v : StringView) : String :=
  match mem_read mem v.data with
  | none => ""
  | some s => String.mk (s.data.take v.size)

/-! ## `std::list` primitives used by the code -/

/-- The iterator `l.begin()`; `none` is `l.end()`, which is what `begin()` is on an empty list. -/
def list_begin (l : List ListNode) : Option DomainInfoListIter :=
  l.head?.map ListNode.id

/-- The element `l.back()`: undefined on an empty list. -/
def list_back (l : List ListNode) : Option DomainInfo :=
  l.getLast?.map ListNode.info

/-- The call `l.pop_back()`. -/
def list_pop_back (l : List ListNode) : List ListNode :=
  l.dropLast

/-- The call `l.push_front(d)`, the new node receiving identity `fresh`. -/
def list_push_front (l : List ListNode) (fresh : Nat) (d : DomainInfo) : List ListNode :=
  ⟨fresh, d⟩ :: l

/-- The read `*it`: undefined when `it` designates no node of `l`. -/
def list_deref : List ListNode → DomainInfoListIter → Option DomainInfo
  | [], _ => none
  | n :: l, it => if n.id = it then some n.info else list_deref l it

/-- The write `it->ip = ip`: undefined when `it` designates no node of `l`. -/
def list_set_ip : List ListNode → DomainInfoListIter → String → Option (List ListNode)
  | [], _, _ => none
  | n :: l, it, ip =>
    if n.id = it then some (⟨n.id, ⟨n.info.domain, ip⟩⟩ :: l)
    else (list_set_ip l it ip).map (fun l1 => n :: l1)

/-- Unlinks the node designated by `it`, returning it and the remaining list. -/
def list_unlink : List ListNode → DomainInfoListIter → Option (ListNode × List ListNode)
  | [], _ => none
  | n :: l, it =>
    if n.id = it then some (n, l)
    else (list_unlink l it).map (fun r => (r.1, n :: r.2))

/-- The call `l.splice(l.begin(), l, it)`: the node designated by `it` is relinked at the front. -/
def list_splice_begin (l : List ListNode) (it : DomainInfoListIter) : Option (List ListNode) :=
  (list_unlink l it).map (fun r => r.1 :: r.2)

/-! ## `std::unordered_map` primitives used by the code -/

/-- The test `_M_key_equals`: the key of the node reads the characters of `name` now. -/
def key_equals (mem : Memory) (name : String) (n : HashNode) : Bool :=
  view_read mem n.key == name

/-- The test `_M_equals`: the code cached in the node is the code of `name`, and the key of
the node reads the characters of `name` now. -/
def node_equals (mem : Memory) (name : String) (n : HashNode) : Bool :=
  n.code == name && key_equals mem name n

/-- The node a lookup of `name` in the bucket of its hash code finds (`_M_find_node`). -/
def bucket_find (mem : Memory) (m : List HashNode) (name : String) : Option HashNode :=
  m.find? (node_equals mem name)

/-- The call `m.find(name)`: the mapped iterator of the node found, `none` for `m.end()`.
With at most 20 entries all nodes are scanned and the keys compared; beyond, the lookup is
the one in the bucket. -/
def map_find (mem : Memory) (m : List HashNode) (name : String) :
    Option DomainInfoListIter :=
  if m.length ≤ 20 then (m.find? (key_equals mem name)).map HashNode.value
  else (bucket_find mem m name).map HashNode.value

/-- The call `m.erase(name)`: removes the node a lookup of `name` finds, found as in `find`,
and nothing when there is none. -/
def map_erase (mem : Memory) (m : List HashNode) (name : String) : List HashNode :=
  if m.length ≤ 20 then m.eraseP (key_equals mem name)
  else m.eraseP (node_equals mem name)

/-- Overwrites the mapped value of the first node that `_M_equals` accepts for `name`. -/
def map_set (mem : Memory) : List HashNode → String → DomainInfoListIter → List HashNode
  | [], _, _ => []
  | n :: m, name, it =>
    if node_equals mem name n then ⟨n.key, n.code, it⟩ :: m else n :: map_set mem m name it

/-- The assignment `m[key] = it`: `operator[]` looks the characters of `key` up in the bucket
of their hash code; it overwrites the mapped value of the node found, and inserts a node
with the view `key` itself as its key when there is none. In `update` it follows a `find`
of the same characters that found nothing, so it inserts. -/
def map_assign (mem : Memory) (m : List HashNode) (key : StringView)
    (it : DomainInfoListIter) : List HashNode :=
  match bucket_find mem m (view_read mem key) with
  | some _ => map_set mem m (view_read mem key) it
  | none => ⟨key, view_read mem key, it⟩ :: m

/-! ## The class `DNSCache` -/

/-- The constructor `DNSCache::DNSCache(size_t max_size)`; an error is the thrown
`std::runtime_error` with its message. -/
def DNSCache.new (max_size : Nat) : Except String DNSCache :=
  if ¬ (max_size > 0) then Except.error "Expected DNSCache max_size > 0"
  else Except.ok { m_max_size := max_size, m_lru_cache := [], m_hash_cache := [], next_node := 0 }

/-- The method `DNSCache::update(name, ip)`, `name` being the address of the string of the
caller that the reference `name` is bound to. -/
def DNSCache.update (c : DNSCache) (mem : Memory) (name : Nat) (ip : String) :
    Option DNSCache :=
  match mem_read mem name with
  | none => none
  | some s =>
    match map_find mem c.m_hash_cache s with
    | some it =>
      -- Found the entry: `it->second->ip = ip`, then send to LRU beginning
      match list_set_ip c.m_lru_cache it ip with
      | none => none
      | some l =>
        if some it ≠ list_begin l then
          match list_splice_begin l it with
          | none => none
          | some l1 => some { c with m_lru_cache := l1 }
        else some { c with m_lru_cache := l }
    | none =>
      -- New entry
      let evicted : Option DNSCache :=
        if c.m_hash_cache.length = c.m_max_size then
          match list_back c.m_lru_cache with
          | none => none
          | some b =>
            some { c with m_hash_cache := map_erase mem c.m_hash_cache b.domain,
                          m_lru_cache := list_pop_back c.m_lru_cache }
        else some c
      match evicted with
      | none => none
      | some c1 =>
        let l := list_push_front c1.m_lru_cache c1.next_node ⟨s, ip⟩
        match list_begin l with
        | none => none
        | some b =>
          some { c1 with m_lru_cache := l,
                         m_hash_cache := map_assign mem c1.m_hash_cache ⟨name, s.length⟩ b,
                         next_node := c1.next_node + 1 }

/-- The method `DNSCache::resolve(name)`, `name` being the address of the string of the caller
that the reference `name` is bound to: the cache after the call and the returned string. -/
def DNSCache.resolve (c : DNSCache) (mem : Memory) (name : Nat) :
    Option (DNSCache × String) :=
  match mem_read mem name with
  | none => none
  | some s =>
    match map_find mem c.m_hash_cache s with
    | none => some (c, "") -- Not found
    | some it =>
      let moved : Option (List ListNode) :=
        if some it ≠ list_begin c.m_lru_cache then list_splice_begin c.m_lru_cache it
        else some c.m_lru_cache
      match moved with
      | none => none
      | some l =>
        match list_deref l it with
        | none => none
        | some d => some ({ c with m_lru_cache := l }, d.ip)

/-! ## Programs of the caller -/

/-- A step of the caller: a write to one of its strings, or a call of one of the two public
methods with one of its strings as the argument `name`. -/
inductive CallerStep where
  | write (s : Nat) (chars : String)
  | update (name : Nat) (ip : String)
  | resolve (name : Nat)
  deriving DecidableEq, Repr

/-- Runs a program of the caller: the final strings of the caller, the final cache and the
strings returned by the `resolve` calls, in call order. -/
def DNSCache.run : DNSCache → Memory → List CallerStep → Option (Memory × DNSCache × List String)
  | c, mem, [] => some (mem, c, [])
  | c, mem, CallerStep.write s chars :: acts =>
    match mem_write mem s chars with
    | none => none
    | some mem1 => c.run mem1 acts
  | c, mem, CallerStep.update name ip :: acts =>
    match c.update mem name ip with
    | none => none
    | some c1 => c1.run mem acts
  | c, mem, CallerStep.resolve name :: acts =>
    match c.resolve mem name with
    | none => none
    | some (c1, r) =>
      match c1.run mem acts with
      | none => none
      | some (mem2, c2, rs) => some (mem2, c2, r :: rs)

/-- The recency list as the sequence of its payloads, front first. -/
def DNSCache.entries (c : DNSCache) : List DomainInfo :=
  c.m_lru_cache.map ListNode.info

/-- The keys of the recency list, front first. -/
def DNSCache.keys (c : DNSCache) : List String :=
  c.m_lru_cache.map (fun n => n.info.domain)

/-- Whether `name` is in the cache, the way the code decides it: `m_hash_cache.find(name) != end()`. -/
def DNSCache.contains (c : DNSCache) (mem : Memory) (name : String) : Bool :=
  (map_find mem c.m_hash_cache name).isSome

/-- A cache whose nodes have distinct identities and whose index locators all designate
nodes of the recency list. -/
def DNSCache.Linked (c : DNSCache) : Prop :=
  (c.m_lru_cache.map ListNode.id).Nodup ∧
    ∀ p ∈ c.m_hash_cache, p.value ∈ c.m_lru_cache.map ListNode.id

/-- The string `resolve` returns for the key `name`, read off index and list: the empty
string when `find` finds nothing, the ip of the designated node otherwise. -/
def lookup_result (c : DNSCache) (mem : Memory) (name : String) : String :=
  match map_find mem c.m_hash_cache name with
  | none => ""
  | some it =>
    match list_deref c.m_lru_cache it with
    | none => ""
    | some d => d.ip

/-! ## Facts about the container primitives -/

theorem list_unlink_append (a b : List ListNode) (n : ListNode)
    (h : n.id ∉ a.map ListNode.id) :
    list_unlink (a ++ n :: b) n.id = some (n, a ++ b) := by
  induction a with
  | nil => simp [list_unlink]
  | cons m a ih =>
    simp only [List.map_cons, List.mem_cons, not_or] at h
    simp [list_unlink, Ne.symm h.1, ih h.2]

theorem list_deref_append (a b : List ListNode) (n : ListNode)
    (h : n.id ∉ a.map ListNode.id) :
    list_deref (a ++ n :: b) n.id = some n.info := by
  induction a with
  | nil => simp [list_deref]
  | cons m a ih =>
    simp only [List.map_cons, List.mem_cons, not_or] at h
    simp [list_deref, Ne.symm h.1, ih h.2]

/-- An iterator that can be dereferenced designates the first node of its identity. -/
theorem list_deref_split (l : List ListNode) (it : DomainInfoListIter) (d : DomainInfo)
    (h : list_deref l it = some d) :
    ∃ a n b, l = a ++ n :: b ∧ n.id = it ∧ n.info = d ∧ n.id ∉ a.map ListNode.id := by
  induction l with
  | nil => simp [list_deref] at h
  | cons m l ih =>
    by_cases hm : m.id = it
    · simp only [list_deref, hm, if_true, Option.some.injEq] at h
      exact ⟨[], m, l, rfl, hm, h, by simp⟩
    · simp only [list_deref, hm, if_false] at h
      obtain ⟨a, n, b, hl, hid, hinfo, hna⟩ := ih h
      refine ⟨m :: a, n, b, by simp [hl], hid, hinfo, ?_⟩
      simp only [List.map_cons, List.mem_cons, not_or]
      exact ⟨fun he => hm (he ▸ hid), hna⟩

theorem list_deref_eq_none_iff (l : List ListNode) (it : DomainInfoListIter) :
    list_deref l it = none ↔ it ∉ l.map ListNode.id := by
  induction l with
  | nil => simp [list_deref]
  | cons m l ih =>
    by_cases hm : m.id = it
    · simp [list_deref, hm]
    · simp [list_deref, hm, ih, Ne.symm hm]

theorem list_deref_of_mem (l : List ListNode) (n : ListNode)
    (hnd : (l.map ListNode.id).Nodup) (hn : n ∈ l) : list_deref l n.id = some n.info := by
  obtain ⟨a, b, hab⟩ := List.append_of_mem hn
  rw [hab, List.map_append, List.map_cons] at hnd
  have hmid := List.nodup_middle.1 hnd
  rw [List.nodup_cons] at hmid
  rw [hab]
  exact list_deref_append a b n (fun h => hmid.1 (List.mem_append_left _ h))

/-- With distinct node identities, what an iterator designates does not depend on the order
of the nodes. -/
theorem list_deref_perm (l1 l2 : List ListNode) (it : DomainInfoListIter)
    (hp : l1.Perm l2) (hnd : (l2.map ListNode.id).Nodup) :
    list_deref l1 it = list_deref l2 it := by
  have hnd1 : (l1.map ListNode.id).Nodup := (hp.map ListNode.id).nodup_iff.2 hnd
  cases h2 : list_deref l2 it with
  | none =>
    rw [list_deref_eq_none_iff] at h2 ⊢
    exact fun h => h2 ((hp.map ListNode.id).mem_iff.1 h)
  | some d =>
    obtain ⟨a, n, b, hl, hid, hinfo, -⟩ := list_deref_split l2 it d h2
    have hn : n ∈ l1 := hp.mem_iff.2 (by simp [hl])
    rw [← hid, ← hinfo]
    exact list_deref_of_mem l1 n hnd1 hn

/-- A `resolve` whose lookup finds nothing returns the empty string and changes nothing. -/
theorem resolve_miss (c : DNSCache) (mem : Memory) (a : Nat) (k : String)
    (hread : mem_read mem a = some k) (hfind : map_find mem c.m_hash_cache k = none) :
    c.resolve mem a = some (c, "") := by
  unfold DNSCache.resolve
  simp only [hread, hfind]

/-- A `resolve` whose lookup finds the locator of node `n`: the node is relinked at the front
and its ip is returned. -/
theorem resolve_hit (c : DNSCache) (mem : Memory) (addr : Nat) (k : String)
    (a b : List ListNode) (n : ListNode)
    (hread : mem_read mem addr = some k) (hfind : map_find mem c.m_hash_cache k = some n.id)
    (hl : c.m_lru_cache = a ++ n :: b) (hna : n.id ∉ a.map ListNode.id) :
    c.resolve mem addr = some ({ c with m_lru_cache := n :: (a ++ b) }, n.info.ip) := by
  unfold DNSCache.resolve
  simp only [hread, hfind, hl]
  cases a with
  | nil => simp [list_begin, list_deref]
  | cons m a1 =>
    have hne : n.id ≠ m.id := by
      intro h
      apply hna
      simp [h]
    have hu := list_unlink_append (m :: a1) b n hna
    simp only [List.cons_append] at hu
    simp [list_begin, hne, list_splice_begin, hu, list_deref]

/-- One `resolve` on a cache whose locators designate nodes, with the strings of the caller as
they are: it is defined, returns `lookup_result`, changes only the order of the list, and a
second `resolve` of the same string right after it changes nothing. -/
theorem resolve_linked (c : DNSCache) (mem : Memory) (hc : c.Linked) (addr : Nat)
    (k : String) (hread : mem_read mem addr = some k) :
    ∃ c1, c.resolve mem addr = some (c1, lookup_result c mem k) ∧ c1.Linked ∧
      c1.m_hash_cache = c.m_hash_cache ∧ c1.m_max_size = c.m_max_size ∧
      c1.next_node = c.next_node ∧ c1.m_lru_cache.Perm c.m_lru_cache ∧
      c1.resolve mem addr = some (c1, lookup_result c mem k) := by
  cases hfind : map_find mem c.m_hash_cache k with
  | none =>
    have hres : lookup_result c mem k = "" := by simp [lookup_result, hfind]
    rw [hres]
    have h := resolve_miss c mem addr k hread hfind
    exact ⟨c, h, hc, rfl, rfl, rfl, List.Perm.refl _, h⟩
  | some it =>
    have hlive : it ∈ c.m_lru_cache.map ListNode.id := by
      have hmem : ∃ p ∈ c.m_hash_cache, p.value = it := by
        unfold map_find bucket_find at hfind
        split at hfind
        · obtain ⟨p, hp, hp2⟩ := Option.map_eq_some'.1 hfind
          exact ⟨p, List.mem_of_find?_eq_some hp, hp2⟩
        · obtain ⟨p, hp, hp2⟩ := Option.map_eq_some'.1 hfind
          exact ⟨p, List.mem_of_find?_eq_some hp, hp2⟩
      obtain ⟨p, hp, hp2⟩ := hmem
      rw [← hp2]
      exact hc.2 p hp
    cases hd : list_deref c.m_lru_cache it with
    | none => exact absurd hlive ((list_deref_eq_none_iff _ _).1 hd)
    | some d =>
      obtain ⟨a, n, b, hl, hid, hinfo, hna⟩ := list_deref_split _ _ _ hd
      have hres : lookup_result c mem k = n.info.ip := by
        simp [lookup_result, hfind, hd, hinfo]
      rw [hres]
      have hfind1 : map_find mem c.m_hash_cache k = some n.id := by rw [hid]; exact hfind
      have h1 := resolve_hit c mem addr k a b n hread hfind1 hl hna
      have hperm : (n :: (a ++ b)).Perm c.m_lru_cache := by
        rw [hl]
        exact List.perm_middle.symm
      have hlinked : DNSCache.Linked { c with m_lru_cache := n :: (a ++ b) } := by
        constructor
        · exact (hperm.map ListNode.id).nodup_iff.2 hc.1
        · intro p hp
          exact (hperm.map ListNode.id).mem_iff.2 (hc.2 p hp)
      have h2 := resolve_hit { c with m_lru_cache := n :: (a ++ b) } mem addr k [] (a ++ b) n
        hread hfind1 rfl (by simp)
      exact ⟨_, h1, hlinked, rfl, rfl, rfl, hperm, h2⟩

/-- What `resolve` returns for a key depends on the index and on the nodes of the list, not
on their order. -/
theorem lookup_result_congr (c c1 : DNSCache) (mem : Memory) (k : String)
    (hidx : c1.m_hash_cache = c.m_hash_cache) (hp : c1.m_lru_cache.Perm c.m_lru_cache)
    (hnd : (c.m_lru_cache.map ListNode.id).Nodup) :
    lookup_result c1 mem k = lookup_result c mem k := by
  unfold lookup_result
  rw [hidx]
  cases map_find mem c.m_hash_cache k with
  | none => rfl
  | some it => simp only [list_deref_perm _ _ it hp hnd]

/-- A run of `resolve` calls on a cache whose locators designate nodes, with the strings of
the caller as they are: it is defined, every call returns `lookup_result` of its key in
the first cache, and only the order of the list changes. -/
theorem run_resolves_linked (mem : Memory) (names : List Nat) :
    ∀ c : DNSCache, c.Linked → (∀ a ∈ names, (mem_read mem a).isSome = true) →
      ∃ c1 rs, c.run mem (names.map CallerStep.resolve) = some (mem, c1, rs) ∧
        rs.length = names.length ∧
        c1.m_hash_cache = c.m_hash_cache ∧ c1.m_max_size = c.m_max_size ∧
        c1.m_lru_cache.Perm c.m_lru_cache ∧
        ∀ p ∈ List.zip names rs, ∀ k, mem_read mem p.1 = some k →
          p.2 = lookup_result c mem k := by
  induction names with
  | nil =>
    intro c _ _
    exact ⟨c, [], rfl, rfl, rfl, rfl, List.Perm.refl _, by simp⟩
  | cons a names ih =>
    intro c hc hnames
    obtain ⟨k, hk⟩ := Option.isSome_iff_exists.1 (hnames a (by simp))
    obtain ⟨c1, h1, hl1, hidx1, hm1, -, hp1, -⟩ := resolve_linked c mem hc a k hk
    obtain ⟨c2, rs, h2, hlen, hidx2, hm2, hp2, hres⟩ :=
      ih c1 hl1 (fun x hx => hnames x (List.mem_cons_of_mem _ hx))
    refine ⟨c2, lookup_result c mem k :: rs, ?_, by simp [hlen], hidx2.trans hidx1,
      hm2.trans hm1, hp2.trans hp1, ?_⟩
    · simp [DNSCache.run, h1, h2]
    · intro p hp k1 hk1
      simp only [List.zip_cons_cons, List.mem_cons] at hp
      rcases hp with h | h
      · subst h
        simp only at hk1 ⊢
        rw [hk] at hk1
        simp only [Option.some.injEq] at hk1
        rw [hk1]
      · rw [hres p h k1 hk1]
        exact lookup_result_congr c c1 mem k1 hidx1 hp1 hc.1

/-! ## What `update` does -/

/-- C4. Construction: with `max_size == 0` the constructor fails with an error and yields no
cache; with `max_size > 0` it yields a cache whose recency list and index are empty and whose
capacity is `max_size`. -/
theorem construction (max_size : Nat) :
    (max_size = 0 → ∃ msg, DNSCache.new max_size = Except.error msg) ∧
    (0 < max_size → ∃ c, DNSCache.new max_size = Except.ok c ∧ c.m_lru_cache = [] ∧
      c.m_hash_cache = [] ∧ c.m_max_size = max_size) := by
  constructor
  · intro h
    exact ⟨"Expected DNSCache max_size > 0", by simp [DNSCache.new, h]⟩
  · intro h
    exact ⟨⟨max_size, [], [], 0⟩, by simp [DNSCache.new, h], rfl, rfl, rfl⟩

/-- Witness for C4: capacity 0 is refused, capacity 3 is accepted. -/
theorem construction_witness :
    (∃ msg, DNSCache.new 0 = Except.error msg) ∧
    (∃ c, DNSCache.new 3 = Except.ok c ∧ c.m_lru_cache = [] ∧ c.m_hash_cache = [] ∧
      c.m_max_size = 3) :=
  ⟨(construction 0).1 rfl, (construction 3).2 (by decide)⟩

/-! ## The index views the string of the caller

`update` stores in the index a view of the string bound to `name`; the node holds a copy.
When the caller overwrites that string, the key of the index entry changes with it and the
copy in the node does not. The theorems of this section evaluate the code on programs in
which the caller does so. -/

/-- C1, evaluated. Capacity 1: the caller holds `a` in its string `s`, calls
`update(s, "1")`, overwrites `s` with `z` and calls `resolve("a")`. The lookup compares `a`
with the characters the stored view reads now, `z`: the call returns the empty string,
although the recency list holds `(a, "1")`. -/
theorem read_after_write_lost :
    DNSCache.new 1 = Except.ok ⟨1, [], [], 0⟩ ∧
    (DNSCache.mk 1 [] [] 0).run []
      [CallerStep.write 0 "a", CallerStep.update 0 "1", CallerStep.write 0 "z",
        CallerStep.write 1 "a", CallerStep.resolve 1] =
      some ([(0, "z"), (1, "a")], ⟨1, [⟨0, ⟨"a", "1"⟩⟩], [⟨⟨0, 1⟩, "a", 0⟩], 1⟩, [""]) :=
  ⟨rfl, rfl⟩

/-- C2, evaluated. Capacity 1: after `update(s, "1")` with `s` holding `a`, the caller
overwrites `s` with `z`; `resolve("z")`, of a key no `update` was given, finds the entry of
`a` and returns `1`. -/
theorem unknown_key_found :
    DNSCache.new 1 = Except.ok ⟨1, [], [], 0⟩ ∧
    (DNSCache.mk 1 [] [] 0).run []
      [CallerStep.write 0 "a", CallerStep.update 0 "1", CallerStep.write 0 "z",
        CallerStep.write 1 "z", CallerStep.resolve 1] =
      some ([(0, "z"), (1, "z")], ⟨1, [⟨0, ⟨"a", "1"⟩⟩], [⟨⟨0, 1⟩, "a", 0⟩], 1⟩, ["1"]) :=
  ⟨rfl, rfl⟩

/-- C3, evaluated. Capacity 2: after `update(s, "1")` with `s` holding `a` the cache has one
entry; the caller overwrites `s` with `z` and calls `update("a", "2")`: the lookup misses,
a second node of key `a` is linked, and list and index have two entries. -/
theorem overwrite_duplicates :
    DNSCache.new 2 = Except.ok ⟨2, [], [], 0⟩ ∧
    (DNSCache.mk 2 [] [] 0).run [] [CallerStep.write 0 "a", CallerStep.update 0 "1"] =
      some ([(0, "a")], ⟨2, [⟨0, ⟨"a", "1"⟩⟩], [⟨⟨0, 1⟩, "a", 0⟩], 1⟩, []) ∧
    (DNSCache.mk 2 [⟨0, ⟨"a", "1"⟩⟩] [⟨⟨0, 1⟩, "a", 0⟩] 1).run [(0, "a")]
      [CallerStep.write 0 "z", CallerStep.write 1 "a", CallerStep.update 1 "2"] =
      some ([(0, "z"), (1, "a")],
        ⟨2, [⟨1, ⟨"a", "2"⟩⟩, ⟨0, ⟨"a", "1"⟩⟩], [⟨⟨1, 1⟩, "a", 1⟩, ⟨⟨0, 1⟩, "a", 0⟩], 2⟩, []) ∧
    (DNSCache.mk 2 [⟨1, ⟨"a", "2"⟩⟩, ⟨0, ⟨"a", "1"⟩⟩] [⟨⟨1, 1⟩, "a", 1⟩, ⟨⟨0, 1⟩, "a", 0⟩] 2).keys =
      ["a", "a"] :=
  ⟨rfl, rfl, rfl, rfl⟩

/-- C5, evaluated. Capacity 1: after `update(s, "1")` with `s` holding `a`, the caller
overwrites `s` with `y` and calls `update("b", "2")` and `update("c", "3")`. In the first,
`erase(back().domain)` looks for `a`, finds no key reading `a` and erases nothing, so the
index has two entries; in the second the size of the index is not the capacity, nothing is
evicted, and the recency list has two entries. -/
theorem capacity_exceeded :
    DNSCache.new 1 = Except.ok ⟨1, [], [], 0⟩ ∧
    (DNSCache.mk 1 [] [] 0).run []
      [CallerStep.write 0 "a", CallerStep.update 0 "1", CallerStep.write 0 "y",
        CallerStep.write 1 "b", CallerStep.update 1 "2",
        CallerStep.write 2 "c", CallerStep.update 2 "3"] =
      some ([(0, "y"), (1, "b"), (2, "c")],
        ⟨1, [⟨2, ⟨"c", "3"⟩⟩, ⟨1, ⟨"b", "2"⟩⟩],
          [⟨⟨2, 1⟩, "c", 2⟩, ⟨⟨1, 1⟩, "b", 1⟩, ⟨⟨0, 1⟩, "a", 0⟩], 3⟩, []) ∧
    ¬ ([(⟨2, ⟨"c", "3"⟩⟩ : ListNode), ⟨1, ⟨"b", "2"⟩⟩].length ≤ 1) :=
  ⟨rfl, rfl, by decide⟩

/-- C6, evaluated. Capacity 2: the caller passes the keys `k1`, `k2`, `k3` to three `update`
calls through one string that it overwrites before each call. The second and the third
lookup find the entry of the first call, whose view reads the new key: one entry remains,
of key `k1` with the last value, where the two most recently updated keys are `k3`, `k2`. -/
theorem overflow_one_entry :
    DNSCache.new 2 = Except.ok ⟨2, [], [], 0⟩ ∧
    (DNSCache.mk 2 [] [] 0).run []
      [CallerStep.write 0 "k1", CallerStep.update 0 "1", CallerStep.write 0 "k2",
        CallerStep.update 0 "2", CallerStep.write 0 "k3", CallerStep.update 0 "3"] =
      some ([(0, "k3")], ⟨2, [⟨0, ⟨"k1", "3"⟩⟩], [⟨⟨0, 2⟩, "k1", 0⟩], 1⟩, []) ∧
    (DNSCache.mk 2 [⟨0, ⟨"k1", "3"⟩⟩] [⟨⟨0, 2⟩, "k1", 0⟩] 1).keys = ["k1"] :=
  ⟨rfl, rfl, rfl⟩

/-- C7, evaluated. Capacity 3, the calls of the test `LRUCacheEviction` with the key passed
through one string of the caller, overwritten before each call: every `update` after the
first finds the entry of `example1.com`, one entry remains, and the four final `resolve`
calls all return `9.10.11.12`, also the one of `example2.com`. -/
theorem lru_scenario_one_string :
    DNSCache.new 3 = Except.ok ⟨3, [], [], 0⟩ ∧
    (DNSCache.mk 3 [] [] 0).run []
      [CallerStep.write 0 "example1.com", CallerStep.update 0 "1.2.3.4",
        CallerStep.write 0 "example2.com", CallerStep.update 0 "5.6.7.8",
        CallerStep.write 0 "example3.com", CallerStep.update 0 "5.6.7.8",
        CallerStep.write 0 "example1.com", CallerStep.resolve 0,
        CallerStep.write 0 "example3.com", CallerStep.resolve 0,
        CallerStep.write 0 "example4.com", CallerStep.update 0 "9.10.11.12",
        CallerStep.write 0 "example1.com", CallerStep.resolve 0,
        CallerStep.write 0 "example2.com", CallerStep.resolve 0,
        CallerStep.write 0 "example3.com", CallerStep.resolve 0,
        CallerStep.write 0 "example4.com", CallerStep.resolve 0] =
      some ([(0, "example4.com")],
        ⟨3, [⟨0, ⟨"example1.com", "9.10.11.12"⟩⟩], [⟨⟨0, 12⟩, "example1.com", 0⟩], 1⟩,
        ["5.6.7.8", "5.6.7.8", "9.10.11.12", "9.10.11.12", "9.10.11.12", "9.10.11.12"]) :=
  ⟨rfl, rfl⟩

/-- C8, evaluated. Capacity 1, full with `(a, "1")` whose key views the string `s`; the
caller overwrites `s` with `z` and calls `update("b", "2")`, a key the cache does not hold.
The back node is popped, but `erase` removes no index entry: the index has two entries
for a capacity of 1, and the locator of the first designates no node of the list. -/
theorem insert_keeps_stale_entry :
    DNSCache.new 1 = Except.ok ⟨1, [], [], 0⟩ ∧
    (DNSCache.mk 1 [] [] 0).run []
      [CallerStep.write 0 "a", CallerStep.update 0 "1", CallerStep.write 0 "z",
        CallerStep.write 1 "b", CallerStep.update 1 "2"] =
      some ([(0, "z"), (1, "b")],
        ⟨1, [⟨1, ⟨"b", "2"⟩⟩], [⟨⟨1, 1⟩, "b", 1⟩, ⟨⟨0, 1⟩, "a", 0⟩], 2⟩, []) ∧
    list_deref [⟨1, ⟨"b", "2"⟩⟩] 0 = none :=
  ⟨rfl, rfl, rfl⟩

/-- C9, evaluated. Capacity 1, holding `(a, "1")` whose key views the string `s`; the caller
overwrites `s` with `z` and calls `update("a", "3")`. The lookup of `a` misses although the
list holds `a`: the call takes the eviction branch, pops the node of `a`, links a new node
and adds a second index entry. -/
theorem update_existing_evicts :
    DNSCache.new 1 = Except.ok ⟨1, [], [], 0⟩ ∧
    (DNSCache.mk 1 [] [] 0).run [] [CallerStep.write 0 "a", CallerStep.update 0 "1"] =
      some ([(0, "a")], ⟨1, [⟨0, ⟨"a", "1"⟩⟩], [⟨⟨0, 1⟩, "a", 0⟩], 1⟩, []) ∧
    "a" ∈ (DNSCache.mk 1 [⟨0, ⟨"a", "1"⟩⟩] [⟨⟨0, 1⟩, "a", 0⟩] 1).keys ∧
    map_find [(0, "z"), (1, "a")] [⟨⟨0, 1⟩, "a", 0⟩] "a" = none ∧
    (DNSCache.mk 1 [⟨0, ⟨"a", "1"⟩⟩] [⟨⟨0, 1⟩, "a", 0⟩] 1).update [(0, "z"), (1, "a")] 1 "3" =
      some ⟨1, [⟨1, ⟨"a", "3"⟩⟩], [⟨⟨1, 1⟩, "a", 1⟩, ⟨⟨0, 1⟩, "a", 0⟩], 2⟩ :=
  ⟨rfl, rfl, by decide, rfl, rfl⟩

/-- C10, evaluated. Capacity 2, holding `b` at the front and `(a, "1")` behind it, the key of
`a` viewing the string `s`; the caller overwrites `s` with `z` and calls `resolve("a")`: the
call returns the empty string and the node of `a` stays at the back. -/
theorem resolve_present_key_misses :
    DNSCache.new 2 = Except.ok ⟨2, [], [], 0⟩ ∧
    (DNSCache.mk 2 [] [] 0).run []
      [CallerStep.write 0 "a", CallerStep.update 0 "1", CallerStep.write 1 "b",
        CallerStep.update 1 "2", CallerStep.write 0 "z", CallerStep.write 2 "a"] =
      some ([(0, "z"), (1, "b"), (2, "a")],
        ⟨2, [⟨1, ⟨"b", "2"⟩⟩, ⟨0, ⟨"a", "1"⟩⟩], [⟨⟨1, 1⟩, "b", 1⟩, ⟨⟨0, 1⟩, "a", 0⟩], 2⟩, []) ∧
    (⟨"a", "1"⟩ : DomainInfo) ∈
      (DNSCache.mk 2 [⟨1, ⟨"b", "2"⟩⟩, ⟨0, ⟨"a", "1"⟩⟩] [⟨⟨1, 1⟩, "b", 1⟩, ⟨⟨0, 1⟩, "a", 0⟩] 2).entries ∧
    (DNSCache.mk 2 [⟨1, ⟨"b", "2"⟩⟩, ⟨0, ⟨"a", "1"⟩⟩] [⟨⟨1, 1⟩, "b", 1⟩, ⟨⟨0, 1⟩, "a", 0⟩] 2).resolve
        [(0, "z"), (1, "b"), (2, "a")] 2 =
      some (⟨2, [⟨1, ⟨"b", "2"⟩⟩, ⟨0, ⟨"a", "1"⟩⟩], [⟨⟨1, 1⟩, "b", 1⟩, ⟨⟨0, 1⟩, "a", 0⟩], 2⟩, "") :=
  ⟨rfl, rfl, by decide, rfl⟩

/-! ## Repeated lookups -/

/-- Counterexample for C11. Capacity 2, keys `a` and `b` in two strings the caller leaves
alone: after `resolve("a")` and `resolve("b")`, a further `resolve("a")` returns `1` again
but does not leave the cache state unchanged: it relinks the node of `a` at the front. -/
theorem resolve_interleaved_counterexample :
    (DNSCache.mk 2 [] [] 0).run []
      [CallerStep.write 0 "a", CallerStep.update 0 "1", CallerStep.write 1 "b",
        CallerStep.update 1 "2", CallerStep.resolve 0, CallerStep.resolve 1] =
      some ([(0, "a"), (1, "b")],
        ⟨2, [⟨1, ⟨"b", "2"⟩⟩, ⟨0, ⟨"a", "1"⟩⟩], [⟨⟨1, 1⟩, "b", 1⟩, ⟨⟨0, 1⟩, "a", 0⟩], 2⟩, ["1", "2"]) ∧
    (DNSCache.mk 2 [⟨1, ⟨"b", "2"⟩⟩, ⟨0, ⟨"a", "1"⟩⟩] [⟨⟨1, 1⟩, "b", 1⟩, ⟨⟨0, 1⟩, "a", 0⟩] 2).resolve
        [(0, "a"), (1, "b")] 0 =
      some (⟨2, [⟨0, ⟨"a", "1"⟩⟩, ⟨1, ⟨"b", "2"⟩⟩], [⟨⟨1, 1⟩, "b", 1⟩, ⟨⟨0, 1⟩, "a", 0⟩], 2⟩, "1") ∧
    (DNSCache.mk 2 [⟨0, ⟨"a", "1"⟩⟩, ⟨1, ⟨"b", "2"⟩⟩] [⟨⟨1, 1⟩, "b", 1⟩, ⟨⟨0, 1⟩, "a", 0⟩] 2) ≠
      DNSCache.mk 2 [⟨1, ⟨"b", "2"⟩⟩, ⟨0, ⟨"a", "1"⟩⟩] [⟨⟨1, 1⟩, "b", 1⟩, ⟨⟨0, 1⟩, "a", 0⟩] 2 :=
  ⟨rfl, rfl, by decide⟩

/-- C11, amended. In a cache whose nodes have distinct identities and whose index locators
all designate nodes of the recency list, and with the strings of the caller left as they
are: every run of `resolve` calls only is defined and leaves the strings, the index, the
capacity and the set of nodes as they are, changing at most the order of the list; any two
of its calls with equal keys return the same string; and a `resolve` that directly
follows a `resolve` of the same string returns the same string and leaves the cache state
unchanged. -/
theorem resolve_repeat (c : DNSCache) (mem : Memory) (hc : c.Linked) (names : List Nat)
    (hnames : ∀ a ∈ names, (mem_read mem a).isSome = true) :
    (∃ c1 rs, c.run mem (names.map CallerStep.resolve) = some (mem, c1, rs) ∧
      rs.length = names.length ∧
      c1.m_hash_cache = c.m_hash_cache ∧ c1.m_max_size = c.m_max_size ∧
      c1.m_lru_cache.Perm c.m_lru_cache ∧
      ∀ p ∈ List.zip names rs, ∀ q ∈ List.zip names rs,
        mem_read mem p.1 = mem_read mem q.1 → p.2 = q.2) ∧
    (∀ a ∈ names, ∃ c2 r, c.resolve mem a = some (c2, r) ∧
      c2.resolve mem a = some (c2, r)) := by
  constructor
  · obtain ⟨c1, rs, hrun, hlen, hidx, hm, hp, hres⟩ := run_resolves_linked mem names c hc hnames
    refine ⟨c1, rs, hrun, hlen, hidx, hm, hp, ?_⟩
    intro p hp1 q hq1 heq
    have hpa : p.1 ∈ names := (List.of_mem_zip hp1).1
    obtain ⟨k, hk⟩ := Option.isSome_iff_exists.1 (hnames p.1 hpa)
    rw [hres p hp1 k hk, hres q hq1 k (heq ▸ hk)]
  · intro a ha
    obtain ⟨k, hk⟩ := Option.isSome_iff_exists.1 (hnames a ha)
    obtain ⟨c2, h1, -, -, -, -, -, h2⟩ := resolve_linked c mem hc a k hk
    exact ⟨c2, _, h1, h2⟩

/-- Witness for C11, amended: capacity 2 holding `b` and `a`; `resolve` of `a`, `b`, `a`,
the absent `c`, and `a`. -/
theorem resolve_repeat_witness :
    (DNSCache.mk 2 [⟨1, ⟨"b", "2"⟩⟩, ⟨0, ⟨"a", "1"⟩⟩] [⟨⟨1, 1⟩, "b", 1⟩, ⟨⟨0, 1⟩, "a", 0⟩] 2).Linked ∧
    (∀ a ∈ [0, 1, 0, 2, 0], (mem_read [(0, "a"), (1, "b"), (2, "c")] a).isSome = true) ∧
    ∃ c1 rs,
      (DNSCache.mk 2 [⟨1, ⟨"b", "2"⟩⟩, ⟨0, ⟨"a", "1"⟩⟩] [⟨⟨1, 1⟩, "b", 1⟩, ⟨⟨0, 1⟩, "a", 0⟩] 2).run
        [(0, "a"), (1, "b"), (2, "c")] ([0, 1, 0, 2, 0].map CallerStep.resolve) =
        some ([(0, "a"), (1, "b"), (2, "c")], c1, rs) ∧
      rs.length = [0, 1, 0, 2, 0].length :=
  have hl : (DNSCache.mk 2 [⟨1, ⟨"b", "2"⟩⟩, ⟨0, ⟨"a", "1"⟩⟩]
      [⟨⟨1, 1⟩, "b", 1⟩, ⟨⟨0, 1⟩, "a", 0⟩] 2).Linked := by
    unfold DNSCache.Linked
    decide
  have hn : ∀ a ∈ [0, 1, 0, 2, 0],
      (mem_read [(0, "a"), (1, "b"), (2, "c")] a).isSome = true := by decide
  ⟨hl, hn, (resolve_repeat _ _ hl [0, 1, 0, 2, 0] hn).1.imp
    fun _ h1 => h1.imp fun _ h2 => ⟨h2.1, h2.2.1⟩⟩

/-- The value `resolve` returns for a key follows the string of the caller. Capacity 1:
`resolve("a")` returns `1`; the caller overwrites with `z` the string it passed to `update`;
`resolve("a")` returns the empty string, with no `update` in between. -/
theorem resolve_follows_caller_string :
    (DNSCache.mk 1 [] [] 0).run []
      [CallerStep.write 0 "a", CallerStep.update 0 "1", CallerStep.write 1 "a",
        CallerStep.resolve 1, CallerStep.write 0 "z", CallerStep.resolve 1] =
      some ([(0, "z"), (1, "a")], ⟨1, [⟨0, ⟨"a", "1"⟩⟩], [⟨⟨0, 1⟩, "a", 0⟩], 1⟩, ["1", ""]) :=
  rfl

/-! ## Misses and empty values -/

/-- C14, evaluated. Capacity 3: after `update(s, "1")` with `s` holding `k0`, the caller
overwrites `s` with `k1`. The list holds one entry, of key `k0`; the index holds the key
`k1`, of which the list has no entry, and does not hold `k0`. -/
theorem index_list_diverge :
    DNSCache.new 3 = Except.ok ⟨3, [], [], 0⟩ ∧
    (DNSCache.mk 3 [] [] 0).run []
      [CallerStep.write 0 "k0", CallerStep.update 0 "1", CallerStep.write 0 "k1"] =
      some ([(0, "k1")], ⟨3, [⟨0, ⟨"k0", "1"⟩⟩], [⟨⟨0, 2⟩, "k0", 0⟩], 1⟩, []) ∧
    (DNSCache.mk 3 [⟨0, ⟨"k0", "1"⟩⟩] [⟨⟨0, 2⟩, "k0", 0⟩] 1).keys = ["k0"] ∧
    (DNSCache.mk 3 [⟨0, ⟨"k0", "1"⟩⟩] [⟨⟨0, 2⟩, "k0", 0⟩] 1).contains [(0, "k1")] "k1" = true ∧
    (DNSCache.mk 3 [⟨0, ⟨"k0", "1"⟩⟩] [⟨⟨0, 2⟩, "k0", 0⟩] 1).contains [(0, "k1")] "k0" = false :=
  ⟨rfl, rfl, rfl, rfl, rfl⟩

/-- C15, evaluated. Capacity 3: `update` of `k0`, `k1`, `k2` and `resolve` of `k1`, the key
passed through one string of the caller overwritten before each call. Three distinct keys
are updated and the capacity is 3, but the recency list holds one key, `k0`. -/
theorem recency_list_one_key :
    DNSCache.new 3 = Except.ok ⟨3, [], [], 0⟩ ∧
    (DNSCache.mk 3 [] [] 0).run []
      [CallerStep.write 0 "k0", CallerStep.update 0 "0", CallerStep.write 0 "k1",
        CallerStep.update 0 "1", CallerStep.write 0 "k2", CallerStep.update 0 "2",
        CallerStep.write 0 "k1", CallerStep.resolve 0] =
      some ([(0, "k1")], ⟨3, [⟨0, ⟨"k0", "2"⟩⟩], [⟨⟨0, 2⟩, "k0", 0⟩], 1⟩, ["2"]) ∧
    (DNSCache.mk 3 [⟨0, ⟨"k0", "2"⟩⟩] [⟨⟨0, 2⟩, "k0", 0⟩] 1).keys = ["k0"] ∧
    min 3 ["k0", "k1", "k2"].dedup.length = 3 :=
  ⟨rfl, rfl, rfl, by decide⟩

/-- C16, evaluated. Capacity 3: `update("k0", "v0")`, `update("k1", "v1")`,
`update("k2", "v2")` and `resolve("k0")`, the key passed through one string of the caller
overwritten before each call. The `resolve` returns `v2`, the value written for `k2`:
neither the empty string nor `v0`, the value of the most recent `update` of `k0`. -/
theorem stale_value_returned :
    DNSCache.new 3 = Except.ok ⟨3, [], [], 0⟩ ∧
    (DNSCache.mk 3 [] [] 0).run []
      [CallerStep.write 0 "k0", CallerStep.update 0 "v0", CallerStep.write 0 "k1",
        CallerStep.update 0 "v1", CallerStep.write 0 "k2", CallerStep.update 0 "v2",
        CallerStep.write 0 "k0", CallerStep.resolve 0] =
      some ([(0, "k0")], ⟨3, [⟨0, ⟨"k0", "v2"⟩⟩], [⟨⟨0, 2⟩, "k0", 0⟩], 1⟩, ["v2"]) ∧
    "v2" ≠ "" ∧ "v2" ≠ "v0" :=
  ⟨rfl, rfl, by decide, by decide⟩

/-- C17, evaluated. Capacity 1, full with `(a, "1")` whose key views the string `s`, which
the caller has overwritten with `z`. An `update("b", "2")` takes the eviction branch: `b` is
not found and the size of the index is the capacity. The list is not empty and `back()` is
`(a, "1")`, but its key `a` is not in the index and `erase` removes nothing. -/
theorem eviction_erases_nothing :
    (DNSCache.mk 1 [] [] 0).run []
      [CallerStep.write 0 "a", CallerStep.update 0 "1", CallerStep.write 0 "z",
        CallerStep.write 1 "b"] =
      some ([(0, "z"), (1, "b")], ⟨1, [⟨0, ⟨"a", "1"⟩⟩], [⟨⟨0, 1⟩, "a", 0⟩], 1⟩, []) ∧
    map_find [(0, "z"), (1, "b")] [⟨⟨0, 1⟩, "a", 0⟩] "b" = none ∧
    [(⟨⟨0, 1⟩, "a", 0⟩ : HashNode)].length = 1 ∧
    list_back [⟨0, ⟨"a", "1"⟩⟩] = some ⟨"a", "1"⟩ ∧
    (DNSCache.mk 1 [⟨0, ⟨"a", "1"⟩⟩] [⟨⟨0, 1⟩, "a", 0⟩] 1).contains [(0, "z"), (1, "b")] "a" =
      false ∧
    map_erase [(0, "z"), (1, "b")] [⟨⟨0, 1⟩, "a", 0⟩] "a" = [⟨⟨0, 1⟩, "a", 0⟩] :=
  ⟨rfl, rfl, rfl, rfl, rfl, rfl⟩

/-- C18, evaluated. Capacity 2, holding `b` at the front and `a` at the back, the key of `a`
viewing the string `s`; the caller overwrites `s` with `z` and calls `resolve("z")`, a key
that was never inserted and that the list does not hold. The call returns `1` and relinks
the node of `a` at the front, so that the next insertion evicts `b` instead of `a`. -/
theorem resolve_absent_key_promotes :
    (DNSCache.mk 2 [] [] 0).run []
      [CallerStep.write 0 "a", CallerStep.update 0 "1", CallerStep.write 1 "b",
        CallerStep.update 1 "2", CallerStep.write 0 "z", CallerStep.write 2 "z"] =
      some ([(0, "z"), (1, "b"), (2, "z")],
        ⟨2, [⟨1, ⟨"b", "2"⟩⟩, ⟨0, ⟨"a", "1"⟩⟩], [⟨⟨1, 1⟩, "b", 1⟩, ⟨⟨0, 1⟩, "a", 0⟩], 2⟩, []) ∧
    "z" ∉ (DNSCache.mk 2 [⟨1, ⟨"b", "2"⟩⟩, ⟨0, ⟨"a", "1"⟩⟩]
      [⟨⟨1, 1⟩, "b", 1⟩, ⟨⟨0, 1⟩, "a", 0⟩] 2).keys ∧
    (DNSCache.mk 2 [⟨1, ⟨"b", "2"⟩⟩, ⟨0, ⟨"a", "1"⟩⟩] [⟨⟨1, 1⟩, "b", 1⟩, ⟨⟨0, 1⟩, "a", 0⟩] 2).resolve
        [(0, "z"), (1, "b"), (2, "z")] 2 =
      some (⟨2, [⟨0, ⟨"a", "1"⟩⟩, ⟨1, ⟨"b", "2"⟩⟩], [⟨⟨1, 1⟩, "b", 1⟩, ⟨⟨0, 1⟩, "a", 0⟩], 2⟩, "1") ∧
    list_back [⟨1, ⟨"b", "2"⟩⟩, ⟨0, ⟨"a", "1"⟩⟩] = some ⟨"a", "1"⟩ ∧
    list_back [⟨0, ⟨"a", "1"⟩⟩, ⟨1, ⟨"b", "2"⟩⟩] = some ⟨"b", "2"⟩ :=
  ⟨rfl, by decide, rfl, rfl, rfl⟩

/-- C19, evaluated. Capacity 1: after `update(s, "1")` with `s` holding `a` the cache holds
exactly capacity entries. The caller overwrites `s` with `y`; after `update("b", "2")` the
list has one entry and the index two, and after `update("c", "3")` the list has two
entries and the index three: a full cache does not stay at capacity. -/
theorem full_cache_grows :
    (DNSCache.mk 1 [] [] 0).run [] [CallerStep.write 0 "a", CallerStep.update 0 "1"] =
      some ([(0, "a")], ⟨1, [⟨0, ⟨"a", "1"⟩⟩], [⟨⟨0, 1⟩, "a", 0⟩], 1⟩, []) ∧
    (DNSCache.mk 1 [⟨0, ⟨"a", "1"⟩⟩] [⟨⟨0, 1⟩, "a", 0⟩] 1).run [(0, "a")]
      [CallerStep.write 0 "y", CallerStep.write 1 "b", CallerStep.update 1 "2"] =
      some ([(0, "y"), (1, "b")],
        ⟨1, [⟨1, ⟨"b", "2"⟩⟩], [⟨⟨1, 1⟩, "b", 1⟩, ⟨⟨0, 1⟩, "a", 0⟩], 2⟩, []) ∧
    (DNSCache.mk 1 [⟨1, ⟨"b", "2"⟩⟩] [⟨⟨1, 1⟩, "b", 1⟩, ⟨⟨0, 1⟩, "a", 0⟩] 2).run [(0, "y"), (1, "b")]
      [CallerStep.write 2 "c", CallerStep.update 2 "3"] =
      some ([(0, "y"), (1, "b"), (2, "c")],
        ⟨1, [⟨2, ⟨"c", "3"⟩⟩, ⟨1, ⟨"b", "2"⟩⟩],
          [⟨⟨2, 1⟩, "c", 2⟩, ⟨⟨1, 1⟩, "b", 1⟩, ⟨⟨0, 1⟩, "a", 0⟩], 3⟩, []) :=
  ⟨rfl, rfl, rfl⟩
